import Mathlib

/-!
Verification of the in-process cache package (SimpleCache and TTLCache)
of the `go-test-cimb` repository, a shallow embedding of the Go source.

Time instants and durations are modelled as `Int` (nanoseconds), matching
Go's `time.Time`/`time.Duration`; `t1.After(t2)` in Go is the strict
comparison `t2 < t1`.  The Go maps `map[string]interface{}` and
`map[string]*cacheItem` are modelled as association lists with a
first-match lookup; map assignment replaces any existing binding, map
deletion filters the key out, exactly as the Go built-ins behave on a
map whose keys are unique.  The stored value type is a parameter `V`,
standing for Go's `interface{}`.
-/

/-- First-match lookup in an association list, the model of reading a
Go map (`item, exists := c.data[key]`). -/
def lookupKey {α : Type} (k : String) : List (String × α) → Option α
  | [] => none
  | (k', v) :: rest => if k' = k then some v else lookupKey k rest

/-- Model of Go map assignment `m[k] = v`: the new binding is present and
any previous binding for `k` is gone; bindings for other keys are kept. -/
def assignKey {α : Type} (m : List (String × α)) (k : String) (v : α) :
    List (String × α) :=
  (k, v) :: m.filter (fun p => p.1 != k)

/-- Model of Go map deletion `delete(m, k)`. -/
def removeKey {α : Type} (m : List (String × α)) (k : String) :
    List (String × α) :=
  m.filter (fun p => p.1 != k)

/-- `cacheItem` from the source: an opaque value together with an absolute
expiration instant. -/
structure cacheItem (V : Type) where
  value : V
  expiration : Int
  deriving DecidableEq, Repr

/-- `cacheItem.isExpired` from the source: `time.Now().After(item.expiration)`,
i.e. the current instant is strictly later than the expiration instant. -/
def cacheItem.isExpired {V : Type} (item : cacheItem V) (now : Int) : Bool :=
  item.expiration < now

/-- `TTLCache` from the source: the entry mapping plus the configured
default TTL.  The mutex, ticker and stop channel are concurrency plumbing
with no influence on the functional state and are not modelled. -/
structure TTLCache (V : Type) where
  data : List (String × cacheItem V)
  defaultTTL : Int
  deriving DecidableEq, Repr

namespace TTLCache

/-- `TTLCache.SetWithTTL` from the source: stores
`value` with expiration `time.Now().Add(ttl)`, replacing any previous
binding for the key. -/
def SetWithTTL {V : Type} (c : TTLCache V) (key : String) (value : V)
    (ttl : Int) (now : Int) : TTLCache V :=
  { c with data := assignKey c.data key ⟨value, now + ttl⟩ }

/-- `TTLCache.Set` from the source: `SetWithTTL` with the default TTL. -/
def Set {V : Type} (c : TTLCache V) (key : String) (value : V)
    (now : Int) : TTLCache V :=
  c.SetWithTTL key value c.defaultTTL now

/-- `TTLCache.Get` from the source: look the key up; absent keys and
entries with `item.isExpired()` report not-found (`nil, false`, modelled
as `none`), otherwise the stored value is returned (`item.value, true`,
modelled as `some`). -/
def Get {V : Type} (c : TTLCache V) (key : String) (now : Int) : Option V :=
  match lookupKey key c.data with
  | none => none
  | some item => if item.isExpired now then none else some item.value

/-- `TTLCache.Delete` from the source: `delete(c.data, key)`. -/
def Delete {V : Type} (c : TTLCache V) (key : String) : TTLCache V :=
  { c with data := removeKey c.data key }

/-- `TTLCache.deleteExpired` from the source: under the write lock, delete
every entry with `now.After(item.expiration)`, i.e. keep exactly the
entries whose expiration instant is not strictly before `now`. -/
def deleteExpired {V : Type} (c : TTLCache V) (now : Int) : TTLCache V :=
  { c with data := c.data.filter (fun p => !(p.2.isExpired now)) }

/-- `TTLCache.Clear` from the source: replace the mapping with a fresh
empty one. -/
def Clear {V : Type} (c : TTLCache V) : TTLCache V :=
  { c with data := [] }

/-- `TTLCache.Size` from the source: `len(c.data)`, the physical entry
count, expired entries included. -/
def Size {V : Type} (c : TTLCache V) : Nat :=
  c.data.length

end TTLCache

/-- `time.Second` in nanoseconds. -/
def second : Int := 1000000000

/-- `time.Minute` in nanoseconds. -/
def minute : Int := 60 * second

/-- The cleanup-interval computation at the top of `TTLCache.startCleanup`:
`cleanupInterval := c.defaultTTL / 2` (Go integer division truncates toward
zero, `Int.div`), then capped at `time.Minute`, then raised to at least
`time.Second`. -/
def cleanupInterval (defaultTTL : Int) : Int :=
  let ci := Int.tdiv defaultTTL 2
  let ci := if minute < ci then minute else ci
  if ci < second then second else ci

/-- `SimpleCache` from the source: a plain mapping with no expiration. -/
structure SimpleCache (V : Type) where
  data : List (String × V)
  deriving DecidableEq, Repr

namespace SimpleCache

/-- `SimpleCache.Set` from the source: `c.data[key] = value`. -/
def Set {V : Type} (c : SimpleCache V) (key : String) (value : V) :
    SimpleCache V :=
  { c with data := assignKey c.data key value }

/-- `SimpleCache.Get` from the source: `value, exists := c.data[key]`.
It takes no time argument because the Go method reads no clock. -/
def Get {V : Type} (c : SimpleCache V) (key : String) : Option V :=
  lookupKey key c.data

/-- `SimpleCache.Delete` from the source: `delete(c.data, key)`. -/
def Delete {V : Type} (c : SimpleCache V) (key : String) : SimpleCache V :=
  { c with data := removeKey c.data key }

end SimpleCache

/-- A foreground operation on a `SimpleCache`, used to talk about what
later calls do to an earlier `Set`. -/
inductive SOp (V : Type) where
  | set (key : String) (value : V)
  | del (key : String)

/-- Apply one operation. -/
def SimpleCache.applyOp {V : Type} (c : SimpleCache V) : SOp V → SimpleCache V
  | .set k v => c.Set k v
  | .del k => c.Delete k

/-- Apply a sequence of operations, oldest first. -/
def SimpleCache.applyOps {V : Type} (c : SimpleCache V) :
    List (SOp V) → SimpleCache V
  | [] => c
  | op :: rest => (c.applyOp op).applyOps rest

/-- Whether an operation writes the given key (overwrites or deletes it). -/
def SOp.touches {V : Type} (k : String) : SOp V → Bool
  | .set k' _ => k' == k
  | .del k' => k' == k

/-! ## General lemmas about the map model -/

/-- A successful lookup means the list is nonempty. -/
theorem lookupKey_some_ne_nil {α : Type} {k : String} {l : List (String × α)}
    {v : α} (h : lookupKey k l = some v) : l ≠ [] := by
  intro hnil
  rw [hnil] at h
  simp [lookupKey] at h

/-- Looking up the key just assigned yields the assigned value. -/
theorem lookupKey_assignKey_self {α : Type} (m : List (String × α))
    (k : String) (v : α) : lookupKey k (assignKey m k v) = some v := by
  simp [assignKey, lookupKey]

/-- Removing a key removes every binding for it. -/
theorem lookupKey_removeKey_self {α : Type} (m : List (String × α))
    (k : String) : lookupKey k (removeKey m k) = none := by
  induction m with
  | nil => rfl
  | cons p rest ih =>
    by_cases hk : p.1 = k
    · simpa [removeKey, List.filter_cons, hk] using ih
    · simpa [removeKey, List.filter_cons, hk, lookupKey] using ih

/-- Filtering out one key leaves lookups of other keys unchanged. -/
theorem lookupKey_removeKey_other {α : Type} (m : List (String × α))
    {k k' : String} (h : k' ≠ k) :
    lookupKey k (removeKey m k') = lookupKey k m := by
  induction m with
  | nil => rfl
  | cons p rest ih =>
    by_cases hk : p.1 = k'
    · have hne : p.1 ≠ k := by rw [hk]; exact h
      simpa [removeKey, List.filter_cons, hk, lookupKey, hne, h] using ih
    · by_cases hk2 : p.1 = k
      · simp [removeKey, List.filter_cons, hk, lookupKey, hk2, Ne.symm h]
      · simpa [removeKey, List.filter_cons, hk, lookupKey, hk2] using ih

/-- Assigning one key leaves lookups of other keys unchanged. -/
theorem lookupKey_assignKey_other {α : Type} (m : List (String × α))
    {k k' : String} (v : α) (h : k' ≠ k) :
    lookupKey k (assignKey m k' v) = lookupKey k m := by
  have heq : lookupKey k (assignKey m k' v) = lookupKey k (removeKey m k') := by
    simp [assignKey, removeKey, lookupKey, h]
  rw [heq, lookupKey_removeKey_other m h]

/-- Removing a key twice is the same as removing it once. -/
theorem removeKey_idem {α : Type} (m : List (String × α)) (k : String) :
    removeKey (removeKey m k) k = removeKey m k := by
  induction m with
  | nil => rfl
  | cons p rest ih =>
    by_cases hk : p.1 = k
    · simp [removeKey, List.filter_cons, hk, ih]
    · simp [removeKey, List.filter_cons, hk, ih]

/-! ## Claim C1: behaviour of `TTLCache.Get` -/

/-- C1 counterexample: the claim says that when the current time is *at or
after* the expiration instant, `Get` reports not-found.  The source tests
`time.Now().After(item.expiration)`, which is strict, so at `now` exactly
equal to the expiration instant the entry is present, the claimed
condition `expiration ≤ now` holds, and yet `Get` returns the value. -/
theorem Get_at_expiration_instant_cex :
    lookupKey "k" (TTLCache.mk [("k", ⟨0, 5⟩)] 10 : TTLCache Nat).data
        = some ⟨0, 5⟩ ∧
    (cacheItem.mk (0 : Nat) 5).expiration ≤ 5 ∧
    (TTLCache.mk [("k", ⟨0, 5⟩)] 10 : TTLCache Nat).Get "k" 5 = some 0 := by
  refine ⟨?_, by decide, ?_⟩ <;> rfl

/-- C1 (amended): if the key is absent, `Get` reports not-found; if the key
is present and the current time is *strictly after* the expiration
instant, `Get` reports not-found; if the key is present and the current
time is at or before the expiration instant, `Get` returns the stored
value. -/
theorem Get_correct {V : Type} (c : TTLCache V) (k : String) (now : Int) :
    (lookupKey k c.data = none → c.Get k now = none) ∧
    ∀ it : cacheItem V, lookupKey k c.data = some it →
      (it.expiration < now → c.Get k now = none) ∧
      (now ≤ it.expiration → c.Get k now = some it.value) := by
  constructor
  · intro h
    simp [TTLCache.Get, h]
  · intro it h
    constructor
    · intro hexp
      simp [TTLCache.Get, h, cacheItem.isExpired, hexp]
    · intro hle
      simp [TTLCache.Get, h, cacheItem.isExpired, not_lt.mpr hle]

/-- C1 witness: `Get_correct` applied at concrete caches, covering the
fresh-entry, expired-entry and absent-key branches. -/
theorem Get_correct_witness :
    (TTLCache.mk [("a", ⟨7, 5⟩)] 10 : TTLCache Nat).Get "a" 3 = some 7 ∧
    (TTLCache.mk [("a", ⟨7, 5⟩)] 10 : TTLCache Nat).Get "a" 9 = none ∧
    (TTLCache.mk [("a", ⟨7, 5⟩)] 10 : TTLCache Nat).Get "b" 3 = none :=
  ⟨((Get_correct (TTLCache.mk [("a", ⟨7, 5⟩)] 10) "a" 3).2 ⟨7, 5⟩
      (by decide)).2 (by decide),
   ((Get_correct (TTLCache.mk [("a", ⟨7, 5⟩)] 10) "a" 9).2 ⟨7, 5⟩
      (by decide)).1 (by decide),
   (Get_correct (TTLCache.mk [("a", ⟨7, 5⟩)] 10) "b" 3).1 (by decide)⟩

/-! ## Claim C2: the logical/physical gap -/

/-- C2: a physically present entry whose expiration instant has passed is
logically absent — `Get` reports not-found — while `Size`, in the same
state, still counts it among the physically present entries. -/
theorem gap_expired_present {V : Type} (c : TTLCache V) (k : String)
    (it : cacheItem V) (now : Int) (hfound : lookupKey k c.data = some it)
    (hexp : it.expiration < now) :
    c.Get k now = none ∧ c.Size = c.data.length ∧ 0 < c.Size := by
  refine ⟨?_, rfl, ?_⟩
  · simp [TTLCache.Get, hfound, cacheItem.isExpired, hexp]
  · have := lookupKey_some_ne_nil hfound
    simpa [TTLCache.Size, List.length_pos] using this

/-- C2 witness: a store holding one expired entry at `now = 9`. -/
theorem gap_expired_present_witness :
    (TTLCache.mk [("a", ⟨7, 5⟩)] 10 : TTLCache Nat).Get "a" 9 = none ∧
    (TTLCache.mk [("a", ⟨7, 5⟩)] 10 : TTLCache Nat).Size
        = (TTLCache.mk [("a", ⟨7, 5⟩)] 10 : TTLCache Nat).data.length ∧
    0 < (TTLCache.mk [("a", ⟨7, 5⟩)] 10 : TTLCache Nat).Size :=
  gap_expired_present (TTLCache.mk [("a", ⟨7, 5⟩)] 10) "a" ⟨7, 5⟩ 9
    (by decide) (by decide)

/-! ## Claim C3: what one sweeper tick removes -/

/-- C3 counterexample: the claim says a tick removes every entry whose
expiration instant is *at or before* the current time.  The source
deletes on `now.After(item.expiration)`, which is strict, so an entry
whose expiration instant equals `now` satisfies the claimed removal
condition yet survives the tick. -/
theorem deleteExpired_at_boundary_cex :
    (cacheItem.mk (0 : Nat) 5).expiration ≤ 5 ∧
    lookupKey "k"
        ((TTLCache.mk [("k", ⟨0, 5⟩)] 10 : TTLCache Nat).deleteExpired 5).data
        = some ⟨0, 5⟩ := by
  refine ⟨by decide, ?_⟩
  rfl

/-- C3 (amended): one sweeper tick removes every entry whose expiration
instant is *strictly before* the current time — no such entry remains in
the mapping afterwards. -/
theorem deleteExpired_removes_expired {V : Type} (c : TTLCache V)
    (now : Int) :
    ∀ p ∈ (c.deleteExpired now).data, now ≤ p.2.expiration := by
  intro p hp
  simp only [TTLCache.deleteExpired, List.mem_filter, Bool.not_eq_true'] at hp
  have : ¬ (p.2.expiration < now) := by simpa [cacheItem.isExpired] using hp.2
  omega

/-- C3 witness: `deleteExpired_removes_expired` at a concrete store; the
surviving entry after a tick at `now = 9` is the unexpired one. -/
theorem deleteExpired_removes_expired_witness :
    (9 : Int) ≤ (cacheItem.mk (1 : Nat) 20).expiration :=
  deleteExpired_removes_expired
    (TTLCache.mk [("a", ⟨0, 5⟩), ("b", ⟨1, 20⟩)] 10) 9
    ("b", ⟨1, 20⟩) (by decide)

/-! ## Claim C10: a sweeper tick only removes expired entries -/

/-- C10: every entry whose expiration instant has not yet passed
(`now ≤ expiration`, the negation of the source's strict
`now.After(expiration)`) survives a sweeper tick as the very same
key/value/expiration binding. -/
theorem deleteExpired_keeps_unexpired {V : Type} (c : TTLCache V)
    (now : Int) :
    ∀ p ∈ c.data, now ≤ p.2.expiration → p ∈ (c.deleteExpired now).data := by
  intro p hp hlive
  simp only [TTLCache.deleteExpired]
  exact List.mem_filter.mpr ⟨hp, by simpa [cacheItem.isExpired] using hlive⟩

/-- C10 witness: the unexpired entry of a concrete store survives a tick
unchanged. -/
theorem deleteExpired_keeps_unexpired_witness :
    ("b", cacheItem.mk (1 : Nat) 20)
      ∈ ((TTLCache.mk [("a", ⟨0, 5⟩), ("b", ⟨1, 20⟩)] 10
            : TTLCache Nat).deleteExpired 9).data :=
  deleteExpired_keeps_unexpired
    (TTLCache.mk [("a", ⟨0, 5⟩), ("b", ⟨1, 20⟩)] 10) 9
    ("b", ⟨1, 20⟩) (by decide) (by decide)

/-! ## Claim C5: the cleanup interval -/

/-- C5: the sweeper interval is half the default TTL (Go integer
division) clamped to the range from one second to one minute: the half
itself when it lies within the range, one second when the half is below
one second, one minute when the half exceeds one minute. -/
theorem cleanupInterval_clamps (defaultTTL : Int) :
    (second ≤ Int.tdiv defaultTTL 2 → Int.tdiv defaultTTL 2 ≤ minute →
      cleanupInterval defaultTTL = Int.tdiv defaultTTL 2) ∧
    (Int.tdiv defaultTTL 2 < second → cleanupInterval defaultTTL = second) ∧
    (minute < Int.tdiv defaultTTL 2 → cleanupInterval defaultTTL = minute) := by
  have hrfl : cleanupInterval defaultTTL =
      if (if minute < Int.tdiv defaultTTL 2 then minute
          else Int.tdiv defaultTTL 2) < second then second
      else if minute < Int.tdiv defaultTTL 2 then minute
          else Int.tdiv defaultTTL 2 := rfl
  rw [hrfl]
  have hsm : second < minute := by decide
  refine ⟨?_, ?_, ?_⟩
  · intro h1 h2
    rw [if_neg (not_lt.mpr h2), if_neg (not_lt.mpr h1)]
  · intro h1
    have : ¬ minute < Int.tdiv defaultTTL 2 := by omega
    rw [if_neg this, if_pos h1]
  · intro h1
    rw [if_pos h1, if_neg (not_lt.mpr (le_of_lt hsm))]

/-- C5 witness: `cleanupInterval_clamps` at a TTL of 10 seconds (half in
range), 1 second (half too small) and 1 day (half too large). -/
theorem cleanupInterval_clamps_witness :
    cleanupInterval (10 * second) = Int.tdiv (10 * second) 2 ∧
    cleanupInterval second = second ∧
    cleanupInterval (86400 * second) = minute :=
  ⟨(cleanupInterval_clamps (10 * second)).1 (by decide) (by decide),
   (cleanupInterval_clamps second).2.1 (by decide),
   (cleanupInterval_clamps (86400 * second)).2.2 (by decide)⟩

/-! ## Claim C6: `SetWithTTL` overwrites value and expiration -/

/-- C6: after `SetWithTTL key value ttl` at instant `now`, the entry bound
to `key` holds exactly `value` with expiration `now + ttl`, whatever was
bound to `key` before (so an update replaces the old expiration rather
than extending it); `Set` is `SetWithTTL` at the default TTL. -/
theorem SetWithTTL_overwrites {V : Type} (c : TTLCache V) (key : String)
    (value : V) (ttl now : Int) :
    lookupKey key (c.SetWithTTL key value ttl now).data
        = some ⟨value, now + ttl⟩ ∧
    c.Set key value now = c.SetWithTTL key value c.defaultTTL now := by
  exact ⟨lookupKey_assignKey_self c.data key _, rfl⟩

/-! ## Claim C7: `Clear` empties the store -/

/-- C7: immediately after `Clear`, every `Get` reports not-found and
`Size` is zero, regardless of the prior entries and of their expiration
state. -/
theorem Clear_empties {V : Type} (c : TTLCache V) (k : String) (now : Int) :
    c.Clear.Get k now = none ∧ c.Clear.Size = 0 := by
  exact ⟨rfl, rfl⟩

/-! ## Claim C8: `Delete` removes and is idempotent -/

/-- C8: on both store variants, `Delete key` leaves the key unbound (it is
a total operation, also defined when the key is absent), and deleting the
same key twice yields exactly the state of deleting it once. -/
theorem Delete_idempotent {V : Type} (c : TTLCache V) (s : SimpleCache V)
    (k : String) :
    lookupKey k (c.Delete k).data = none ∧
    (c.Delete k).Delete k = c.Delete k ∧
    lookupKey k (s.Delete k).data = none ∧
    (s.Delete k).Delete k = s.Delete k := by
  refine ⟨lookupKey_removeKey_self _ _, ?_, lookupKey_removeKey_self _ _, ?_⟩
  · simp [TTLCache.Delete, removeKey_idem]
  · simp [SimpleCache.Delete, removeKey_idem]

/-! ## Claim C9: the unbounded store never expires entries -/

/-- Operations that do not write a key preserve what `Get` returns for
it. -/
theorem applyOps_untouched {V : Type} (c : SimpleCache V) (k : String)
    (v : V) (ops : List (SOp V)) (hold : c.Get k = some v)
    (h : ∀ op ∈ ops, SOp.touches k op = false) :
    (c.applyOps ops).Get k = some v := by
  induction ops generalizing c with
  | nil => exact hold
  | cons op rest ih =>
    have hop : SOp.touches k op = false := h op (List.mem_cons_self op rest)
    have hrest : ∀ op ∈ rest, SOp.touches k op = false := fun o ho =>
      h o (List.mem_cons_of_mem op ho)
    refine ih (c.applyOp op) ?_ hrest
    cases op with
    | set k' v' =>
      have hk : k' ≠ k := by simpa [SOp.touches] using hop
      simpa [SimpleCache.applyOp, SimpleCache.Set, SimpleCache.Get,
        lookupKey_assignKey_other c.data v' hk] using hold
    | del k' =>
      have hk : k' ≠ k := by simpa [SOp.touches] using hop
      simpa [SimpleCache.applyOp, SimpleCache.Delete, SimpleCache.Get,
        lookupKey_removeKey_other c.data hk] using hold

/-- C9: after `Set key value` on the unbounded store, any sequence of
later operations that neither overwrites nor deletes the key leaves
`Get key` returning exactly the value.  `SimpleCache.Get` reads no clock
(it has no time argument), so the result is independent of elapsed
time. -/
theorem SimpleCache_set_persists {V : Type} (c : SimpleCache V)
    (key : String) (value : V) (ops : List (SOp V))
    (h : ∀ op ∈ ops, SOp.touches key op = false) :
    ((c.Set key value).applyOps ops).Get key = some value :=
  applyOps_untouched (c.Set key value) key value ops
    (lookupKey_assignKey_self c.data key value) h

/-- C9 witness: a concrete trace that sets `"a"`, then writes and deletes
other keys; `Get "a"` still returns the original value. -/
theorem SimpleCache_set_persists_witness :
    (((SimpleCache.mk ([] : List (String × Nat))).Set "a" 1).applyOps
        [SOp.set "b" 2, SOp.del "c", SOp.del "b"]).Get "a" = some 1 :=
  SimpleCache_set_persists (SimpleCache.mk []) "a" 1
    [SOp.set "b" 2, SOp.del "c", SOp.del "b"]
    (by intro op hop; fin_cases hop <;> decide)
